import Mathlib

/-!
Verification of the tree-view navigation core of `src/filemanager/tree.c`
(Midnight Commander's directory tree browser).

The backing store (`TreeStore`) is a doubly-linked, depth-first pre-order
sequence of `tree_entry` records.  We embed the linked list as a
`List TEntry`; a pointer into the list is its index, `prev`/`next` are
index-1 / index+1, `tree_first` is index 0, `tree_last` is index
`length - 1`, and the NULL pointer is modelled by an index leaving the
list (guards `ptr->next`/`ptr->prev` become index-range tests).

Per-view state (`WTree`) is the selected index and the `topdiff` scroll
offset (a C `int`, hence `Int`); `tlines(t)` (the visible-row count) is
passed as the parameter `tl`.
-/

/-- `tree_entry` (declared in treestore.h, used throughout tree.c):
`name` is the full path, `subname` the last path component (a C char
array, embedded as `List Char`), `sublevel` the nesting depth and
`submask` the connector-line bitmask. -/
structure TEntry where
  name : String
  subname : List Char
  sublevel : Nat
  submask : Nat
  deriving Repr, DecidableEq

instance : Inhabited TEntry := ⟨⟨"", [], 0, 0⟩⟩

/-- Sublevel of the record at index `k` (dereference of `ptr->sublevel`). -/
def lvlAt (s : List TEntry) (k : Nat) : Nat :=
  (s.getD k default).sublevel

/-- Subname of the record at index `k` (dereference of `ptr->subname`). -/
def subnameAt (s : List TEntry) (k : Nat) : List Char :=
  (s.getD k default).subname

/-- The view state of `struct WTree` that the navigation code touches:
`selected_ptr` (as an index into the store) and `topdiff`. -/
structure TreeView where
  sel : Nat
  topdiff : Int
  deriving Repr, DecidableEq

/-- `tree_check_focus` (tree.c:437): clamp `topdiff` below by 3 and above by
`tlines - 3 - 1`. -/
def tree_check_focus (tl : Int) (d : Int) : Int :=
  if d < 3 then 3
  else if tl - 3 ≤ d then tl - 3 - 1
  else d

/-- `back_ptr` (tree.c:118): walk `prev` links while a predecessor exists and
fewer than `count` steps were taken; returns the resulting index and the
number of steps actually taken (the C code writes it back through `*count`). -/
def back_ptr : Nat → Nat → Nat × Nat
  | i, 0 => (i, 0)
  | 0, _ + 1 => (0, 0)
  | i + 1, c + 1 =>
    let p := back_ptr i c
    (p.1, p.2 + 1)

/-- `forw_ptr` (tree.c:134): walk `next` links while a successor exists
(`i + 1 < len`) and fewer than `count` steps were taken; returns the index
and the steps actually taken. -/
def forw_ptr (len : Nat) : Nat → Nat → Nat × Nat
  | i, 0 => (i, 0)
  | i, c + 1 =>
    if i + 1 < len then
      let p := forw_ptr len (i + 1) c
      (p.1, p.2 + 1)
    else (i, 0)

/-- The loop of `tree_move_forward` (tree.c:477) in tree-navigation ("2d")
mode: `current` walks `next` links while `current->next` exists and has
`sublevel ≥ selected->sublevel`; each time `current` lands on a record with
sublevel equal to the selection's, it becomes the new selection and `j` is
incremented, until `j = i`.  `selLevel` is `tree->selected_ptr->sublevel`
(constant through the loop, as the selection is only replaced by records of
equal sublevel).  The walk advances `cur` by one per iteration and stops
when `cur + 1 < length` fails, so `length` units of fuel make the fuel
inexhaustible; the fuel-0 fallback returns the loop state unchanged. -/
def dyn_forw (s : List TEntry) (selLevel : Nat) :
    Nat → Nat → Nat → Nat → Nat → Nat × Nat
  | 0, _, sel, j, _ => (sel, j)
  | fuel + 1, cur, sel, j, i =>
    if j < i ∧ cur + 1 < s.length ∧ selLevel ≤ lvlAt s (cur + 1) then
      if lvlAt s (cur + 1) = selLevel then
        dyn_forw s selLevel fuel (cur + 1) (cur + 1) (j + 1) i
      else
        dyn_forw s selLevel fuel (cur + 1) sel j i
    else (sel, j)

/-- The loop of `tree_move_backward` (tree.c:449) in tree-navigation mode:
symmetric to `dyn_forw`, walking `prev` links (`cur - 1`); the guard
`current->prev` is `cur > 0`, so the recursion is structural on `cur`. -/
def dyn_back (s : List TEntry) (selLevel : Nat) :
    Nat → Nat → Nat → Nat → Nat × Nat
  | 0, sel, j, _ => (sel, j)
  | cur + 1, sel, j, i =>
    if j < i ∧ selLevel ≤ lvlAt s cur then
      if lvlAt s cur = selLevel then
        dyn_back s selLevel cur cur (j + 1) i
      else
        dyn_back s selLevel cur sel j i
    else (sel, j)

/-- `tree_move_forward` (tree.c:477): in 1d mode `forw_ptr` moves the
selection and the steps taken are added to `topdiff`; in 2d mode the
`dyn_forw` loop runs; both end with `tree_check_focus`. -/
def tree_move_forward (s : List TEntry) (flag : Bool) (tl : Int)
    (v : TreeView) (i : Nat) : TreeView :=
  if !flag then
    let p := forw_ptr s.length v.sel i
    { sel := p.1, topdiff := tree_check_focus tl (v.topdiff + p.2) }
  else
    let p := dyn_forw s (lvlAt s v.sel) s.length v.sel v.sel 0 i
    { sel := p.1, topdiff := tree_check_focus tl (v.topdiff + p.2) }

/-- `tree_move_backward` (tree.c:449): mirror image of
`tree_move_forward`, subtracting the steps taken from `topdiff`. -/
def tree_move_backward (s : List TEntry) (flag : Bool) (tl : Int)
    (v : TreeView) (i : Nat) : TreeView :=
  if !flag then
    let p := back_ptr v.sel i
    { sel := p.1, topdiff := tree_check_focus tl (v.topdiff - p.2) }
  else
    let p := dyn_back s (lvlAt s v.sel) v.sel v.sel 0 i
    { sel := p.1, topdiff := tree_check_focus tl (v.topdiff - p.2) }

/-- The loop of `tree_move_to_parent` (tree.c:540): starting from
`current = selected->prev` (the caller passes `cur = sel - 1`), walk `prev`
while `current` is non-NULL and `current->sublevel >= selected->sublevel`,
decrementing `topdiff` on every iteration; stepping past index 0 yields
NULL (`none`). -/
def parent_walk (s : List TEntry) (selLevel : Nat) :
    Nat → Int → Option Nat × Int
  | 0, d =>
    if selLevel ≤ lvlAt s 0 then (none, d - 1) else (some 0, d)
  | k + 1, d =>
    if selLevel ≤ lvlAt s (k + 1) then parent_walk s selLevel k (d - 1)
    else (some (k + 1), d)

/-- `tree_move_to_parent` (tree.c:540): walk `prev` from the selection past
records of sublevel ≥ the selection's; if the walk hits NULL, fall back to
`tree_first` (index 0); apply `tree_check_focus`; return whether the
selection changed.  A selection at index 0 has `prev = NULL`, so the loop
body never runs there. -/
def tree_move_to_parent (s : List TEntry) (tl : Int) (v : TreeView) :
    TreeView × Bool :=
  match v.sel with
  | 0 => ({ sel := 0, topdiff := tree_check_focus tl v.topdiff }, false)
  | k + 1 =>
    let w := parent_walk s (lvlAt s (k + 1)) k v.topdiff
    let sel' := w.1.getD 0
    ({ sel := sel', topdiff := tree_check_focus tl w.2 }, decide (sel' ≠ k + 1))

/-- `tree_move_to_child` (tree.c:506): if `selected->next` exists with
`sublevel > selected->sublevel`, select it, increment `topdiff` and clamp;
otherwise raise the external "rescan" event once and retry the same check.
The rescan (`mc_tree_cmd_rescan` → `tree_store_rescan`, the store side of
which is outside this slice) is modelled by the post-rescan store `s'`,
with the selection still at the same index; the result carries the store in
effect afterwards and the number of rescans raised. -/
def tree_move_to_child (s s' : List TEntry) (tl : Int) (v : TreeView) :
    List TEntry × TreeView × Nat :=
  if v.sel + 1 < s.length ∧ lvlAt s v.sel < lvlAt s (v.sel + 1) then
    (s, { sel := v.sel + 1, topdiff := tree_check_focus tl (v.topdiff + 1) }, 0)
  else if v.sel + 1 < s'.length ∧ lvlAt s' v.sel < lvlAt s' (v.sel + 1) then
    (s', { sel := v.sel + 1, topdiff := tree_check_focus tl (v.topdiff + 1) }, 1)
  else (s', v, 1)

/-- `tree_move_to_top` (tree.c:565): select `tree_first` and reset
`topdiff` to 0 (no clamping). -/
def tree_move_to_top (_s : List TEntry) (_v : TreeView) : TreeView :=
  { sel := 0, topdiff := 0 }

/-- `tree_move_to_bottom` (tree.c:574): select `tree_last` and set
`topdiff` to `tlines - 3 - 1` (no clamping). -/
def tree_move_to_bottom (s : List TEntry) (tl : Int) (_v : TreeView) :
    TreeView :=
  { sel := s.length - 1, topdiff := tl - 3 - 1 }

/-- The loop of `search_tree` (tree.c:646): starting with
`current = selected_ptr`, loop while `!wrapped || current != selected_ptr`;
a record whose `subname` has `text` as a prefix (`strncmp(subname, text,
strlen(text)) == 0`) becomes the selection and the loop breaks with
`found = 1`; otherwise `current` advances (wrapping from NULL to
`tree_first` and setting `wrapped`) and `topdiff` is incremented.  Returns
(final `current`, `topdiff`, `found`).  The loop advances `current` at
most `length` times before `wrapped ∧ current = start` stops it, so
`length + 1` units of fuel are inexhaustible; the fuel-0 fallback reports
no match. -/
def search_loop (s : List TEntry) (text : List Char) (start : Nat) :
    Nat → Nat → Bool → Int → Nat × Int × Bool
  | 0, _, _, d => (start, d, false)
  | fuel + 1, cur, wrapped, d =>
    if wrapped ∧ cur = start then (start, d, false)
    else if text.isPrefixOf (subnameAt s cur) then (cur, d, true)
    else if cur + 1 < s.length then
      search_loop s text start fuel (cur + 1) wrapped (d + 1)
    else
      search_loop s text start fuel 0 true (d + 1)

/-- `search_tree` (tree.c:646): run the scan loop from the selection and
finish with `tree_check_focus`; on a match the matching record is the new
selection, otherwise the selection is unchanged (the loop's final
`current` equals `selected_ptr` then). -/
def search_tree (s : List TEntry) (tl : Int) (text : List Char)
    (v : TreeView) : TreeView × Bool :=
  let r := search_loop s text v.sel (s.length + 1) v.sel false v.topdiff
  ({ sel := r.1, topdiff := tree_check_focus tl r.2.1 }, r.2.2)

/-- The `KEY_BACKSPACE` key code received by `tree_do_search` (the
constant comes from the tty/key layer outside this slice; its value is the
ncurses code 0407 = 263 — all that matters is that it is outside the
printable range 32..255 and nonzero). -/
def KEY_BACKSPACE : Nat := 263

/-- `tree_do_search` (tree.c:679): `key = KEY_BACKSPACE` chops the last
buffer character (if any); a nonzero key is appended while the buffer is
below its capacity (`sizeof(search_buffer)` = `MC_MAXFILENAMELEN`, a
constant from lib/global.h outside this slice, passed here as `maxlen`);
then the store is scanned and, when the scan fails, the last character of
the (already updated) buffer is chopped again.  Returns the new view state
and buffer. -/
def tree_do_search (s : List TEntry) (tl : Int) (maxlen : Nat)
    (v : TreeView) (buf : List Char) (key : Nat) : TreeView × List Char :=
  let buf1 :=
    if buf.length ≠ 0 ∧ key = KEY_BACKSPACE then buf.dropLast
    else if key ≠ 0 ∧ buf.length < maxlen then buf ++ [Char.ofNat key]
    else buf
  let r := search_tree s tl buf1 v
  if r.2 then (r.1, buf1) else (r.1, buf1.dropLast)

/-- `remove_callback` (tree.c:150): the store's removal hook, invoked with
the entry being removed while its links are still intact.  If that entry
is the view's selection, the selection is reseated to the entry's `next`
if it exists, else to its `prev` (NULL — `none` — when the entry has
neither).  `i` is the removed entry's index, `sel` the selection's. -/
def remove_callback (s : List TEntry) (sel i : Nat) : Option Nat :=
  if sel = i then
    if i + 1 < s.length then some (i + 1)
    else if 0 < i then some (i - 1)
    else none
  else some sel

/-- A removal transaction of the external store against one registered
view: run `remove_callback`, then unlink the entry.  The surviving
selection pointer is re-expressed as an index into the shortened list
(a pointer past the removed entry shifts down by one). -/
def tree_store_remove (s : List TEntry) (sel i : Nat) :
    List TEntry × Option Nat :=
  let p := remove_callback s sel i
  (s.eraseIdx i, p.map fun k => if i < k then k - 1 else k)

/-- One wrap-around of an index walking a store of `n` records: the
record reached from index `i` after accounting for at most one wrap from
the sequence end back to `tree_first`. -/
def wrapIdx (n i : Nat) : Nat :=
  if i < n then i else i - n

/-- Specification-side description of the scan order of `search_tree` as
this spec's §4.4 asserts it: the candidates are the records reached after
1, 2, ..., n forward steps from the selection — the selection itself is a
candidate only as the final record, after a full wrap.  Returns the index
the claimed scan would select. -/
def search_spec_wrap_last (s : List TEntry) (text : List Char)
    (start : Nat) : Option Nat :=
  ((List.range' 1 s.length).find? fun u =>
      text.isPrefixOf (subnameAt s (wrapIdx s.length (start + u)))).map
    fun u => wrapIdx s.length (start + u)

/-- Specification-side description of `tree_move_to_parent`'s target: the
nearest predecessor of the selection with strictly smaller sublevel. -/
def parentIdx (s : List TEntry) (sel : Nat) : Option Nat :=
  (List.range sel).reverse.find? fun j => lvlAt s j < lvlAt s sel

/-- One navigation command of the view, as dispatched by the treeview
event group (part_000): `goto_up`/`goto_down`/`goto_page_up`/
`goto_page_down` are forward/backward moves (taken here with the
navigation mode of the moment), `goto_left`/`goto_right` are
parent/child, `goto_home`/`goto_end` are top/bottom.  `child`'s external
rescan is modelled as leaving the store unchanged (`tree_store_rescan`
lives outside this slice). -/
inductive NavOp where
  | forward (flag : Bool) (n : Nat)
  | backward (flag : Bool) (n : Nat)
  | parent
  | child
  | top
  | bottom
  deriving Repr, DecidableEq

/-- Apply one navigation command to the view. -/
def applyOp (s : List TEntry) (tl : Int) (v : TreeView) : NavOp → TreeView
  | .forward flag n => tree_move_forward s flag tl v n
  | .backward flag n => tree_move_backward s flag tl v n
  | .parent => (tree_move_to_parent s tl v).1
  | .child => (tree_move_to_child s s tl v).2.1
  | .top => tree_move_to_top s v
  | .bottom => tree_move_to_bottom s tl v

/-- Apply a finite sequence of navigation commands. -/
def applyOps (s : List TEntry) (tl : Int) (v : TreeView)
    (ops : List NavOp) : TreeView :=
  ops.foldl (applyOp s tl) v

/-- The concrete store of spec §8's scenario: `/` (depth 0), `/a` (1),
`/a/x` (2), `/b` (1), linked in pre-order. -/
def c8store : List TEntry :=
  [⟨"/", ['/'], 0, 0⟩, ⟨"/a", ['a'], 1, 0⟩, ⟨"/a/x", ['x'], 2, 0⟩,
   ⟨"/b", ['b'], 1, 0⟩]

lemma tree_check_focus_range (tl d : Int) (h : 8 ≤ tl) :
    3 ≤ tree_check_focus tl d ∧ tree_check_focus tl d ≤ tl - 4 := by
  unfold tree_check_focus
  split_ifs <;> omega

lemma tree_check_focus_idem (tl d : Int) (h : 8 ≤ tl) :
    tree_check_focus tl (tree_check_focus tl d) = tree_check_focus tl d := by
  unfold tree_check_focus
  split_ifs <;> omega

lemma forw_ptr_lt (len : Nat) :
    ∀ c i, i < len → (forw_ptr len i c).1 < len := by
  intro c
  induction c with
  | zero => intro i h; simpa [forw_ptr] using h
  | succ c ih =>
    intro i h
    by_cases h2 : i + 1 < len
    · simpa [forw_ptr, h2] using ih (i + 1) h2
    · simpa [forw_ptr, h2] using h

lemma back_ptr_le : ∀ c i, (back_ptr i c).1 ≤ i := by
  intro c
  induction c with
  | zero => intro i; simp [back_ptr]
  | succ c ih =>
    intro i
    cases i with
    | zero => simp [back_ptr]
    | succ i => simpa [back_ptr] using Nat.le_succ_of_le (ih i)

lemma dyn_forw_lt (s : List TEntry) (L : Nat) :
    ∀ fuel cur sel j i, sel < s.length →
      (dyn_forw s L fuel cur sel j i).1 < s.length := by
  intro fuel
  induction fuel with
  | zero => intro cur sel j i h; simpa [dyn_forw] using h
  | succ fuel ih =>
    intro cur sel j i h
    by_cases h1 : j < i ∧ cur + 1 < s.length ∧ L ≤ lvlAt s (cur + 1)
    · by_cases h2 : lvlAt s (cur + 1) = L
      · simpa [dyn_forw, h1, h2] using ih (cur + 1) (cur + 1) (j + 1) i h1.2.1
      · simpa [dyn_forw, h1, h2] using ih (cur + 1) sel j i h
    · simpa [dyn_forw, h1] using h

lemma dyn_back_lt (s : List TEntry) (L : Nat) :
    ∀ cur sel j i, sel < s.length → cur < s.length →
      (dyn_back s L cur sel j i).1 < s.length := by
  intro cur
  induction cur with
  | zero => intro sel j i h _; simpa [dyn_back] using h
  | succ cur ih =>
    intro sel j i h hc
    have hcur : cur < s.length := Nat.lt_of_succ_lt hc
    by_cases h1 : j < i ∧ L ≤ lvlAt s cur
    · by_cases h2 : lvlAt s cur = L
      · simpa [dyn_back, h1, h2] using ih cur (j + 1) i hcur hcur
      · simpa [dyn_back, h1, h2] using ih sel j i h hcur
    · simpa [dyn_back, h1] using h

lemma parent_walk_le (s : List TEntry) (L : Nat) :
    ∀ cur d, (parent_walk s L cur d).1.getD 0 ≤ cur := by
  intro cur
  induction cur with
  | zero => intro d; by_cases h : L ≤ lvlAt s 0 <;> simp [parent_walk, h]
  | succ cur ih =>
    intro d
    by_cases h : L ≤ lvlAt s (cur + 1)
    · simpa [parent_walk, h] using Nat.le_succ_of_le (ih (d - 1))
    · simp [parent_walk, h]

lemma applyOp_sel_lt (s : List TEntry) (tl : Int) (v : TreeView)
    (op : NavOp) (hs : 0 < s.length) (hv : v.sel < s.length) :
    (applyOp s tl v op).sel < s.length := by
  cases op with
  | forward flag n =>
    cases flag
    · simpa [applyOp, tree_move_forward] using forw_ptr_lt s.length n v.sel hv
    · simpa [applyOp, tree_move_forward] using
        dyn_forw_lt s (lvlAt s v.sel) s.length v.sel v.sel 0 n hv
  | backward flag n =>
    cases flag
    · simpa [applyOp, tree_move_backward] using
        Nat.lt_of_le_of_lt (back_ptr_le n v.sel) hv
    · simpa [applyOp, tree_move_backward] using
        dyn_back_lt s (lvlAt s v.sel) v.sel v.sel 0 n hv hv
  | parent =>
    rcases hsel : v.sel with _ | k
    · simpa [applyOp, tree_move_to_parent, hsel] using hs
    · have hk : k + 1 < s.length := hsel ▸ hv
      have := parent_walk_le s (lvlAt s (k + 1)) k v.topdiff
      simp only [applyOp, tree_move_to_parent, hsel]
      omega
  | child =>
    simp only [applyOp, tree_move_to_child]
    split_ifs with h1
    · exact h1.1
    · exact hv
  | top => simpa [applyOp, tree_move_to_top] using hs
  | bottom =>
    simp only [applyOp, tree_move_to_bottom]
    omega

lemma applyOps_sel_lt (s : List TEntry) (tl : Int) (hs : 0 < s.length) :
    ∀ ops v, v.sel < s.length → (applyOps s tl v ops).sel < s.length := by
  intro ops
  induction ops with
  | nil => intro v hv; simpa [applyOps] using hv
  | cons op rest ih =>
    intro v hv
    simpa [applyOps, List.foldl_cons] using
      ih (applyOp s tl v op) (applyOp_sel_lt s tl v op hs hv)

/-- C1: for every non-empty store and every finite sequence of calls to
`tree_move_forward`/`tree_move_backward` (in either navigation mode),
`tree_move_to_parent`, `tree_move_to_child`, `tree_move_to_top` and
`tree_move_to_bottom`, starting from a state whose selection is a record
of the store, the selection afterwards still refers to a record present
in the store (its index stays in range — in particular it is never the
NULL index past the end). -/
theorem tree_selected_always_valid (s : List TEntry) (tl : Int)
    (v : TreeView) (ops : List NavOp) (hs : 0 < s.length)
    (hv : v.sel < s.length) : (applyOps s tl v ops).sel < s.length :=
  applyOps_sel_lt s tl hs ops v hv

lemma search_loop_spec (s : List TEntry) (text : List Char) (start : Nat)
    (hs : start < s.length) :
    ∀ k t d, t + k = s.length →
      search_loop s text start (k + 1) (wrapIdx s.length (start + t))
          (decide (s.length ≤ start + t)) d =
        match (List.range' t k).find?
            (fun u =>
              text.isPrefixOf (subnameAt s (wrapIdx s.length (start + u)))) with
        | some u =>
          (wrapIdx s.length (start + u), d + ((u - t : Nat) : Int), true)
        | none => (start, d + (k : Int), false) := by
  intro k
  induction k with
  | zero =>
    intro t d ht
    have hw : s.length ≤ start + t := by omega
    have hc : wrapIdx s.length (start + t) = start := by
      unfold wrapIdx
      split_ifs <;> omega
    simp [search_loop, hc, hw]
  | succ k ih =>
    intro t d ht
    have htn : t < s.length := by omega
    have hnotstop : ¬(decide (s.length ≤ start + t) = true ∧
        wrapIdx s.length (start + t) = start) := by
      rintro ⟨h1, h2⟩
      have h1' : s.length ≤ start + t := of_decide_eq_true h1
      unfold wrapIdx at h2
      split_ifs at h2 <;> omega
    rw [List.range'_succ, search_loop]
    by_cases hm : text.isPrefixOf (subnameAt s (wrapIdx s.length (start + t)))
    · rw [if_neg (by simpa using hnotstop), if_pos hm]
      rw [List.find?_cons_of_pos _ (by simpa using hm)]
      simp
    · rw [if_neg (by simpa using hnotstop), if_neg hm]
      rw [List.find?_cons_of_neg _ (by simpa using hm)]
      have hstep :
          (if wrapIdx s.length (start + t) + 1 < s.length then
            search_loop s text start (k + 1) (wrapIdx s.length (start + t) + 1)
              (decide (s.length ≤ start + t)) (d + 1)
          else
            search_loop s text start (k + 1) 0 true (d + 1)) =
          search_loop s text start (k + 1) (wrapIdx s.length (start + t + 1))
            (decide (s.length ≤ start + t + 1)) (d + 1) := by
        by_cases hw : s.length ≤ start + t
        · have hcur : wrapIdx s.length (start + t) = start + t - s.length := by
            unfold wrapIdx
            split_ifs <;> omega
          have hlt : wrapIdx s.length (start + t) + 1 < s.length := by omega
          rw [if_pos hlt]
          have e1 : wrapIdx s.length (start + t) + 1 =
              wrapIdx s.length (start + t + 1) := by
            unfold wrapIdx
            split_ifs <;> omega
          have e2 : decide (s.length ≤ start + t) =
              decide (s.length ≤ start + t + 1) := by
            simp only [decide_eq_decide]
            omega
          rw [e1, e2]
        · have hcur : wrapIdx s.length (start + t) = start + t := by
            unfold wrapIdx
            split_ifs <;> omega
          by_cases h2 : start + t + 1 < s.length
          · rw [if_pos (by omega)]
            have e1 : wrapIdx s.length (start + t) + 1 =
                wrapIdx s.length (start + t + 1) := by
              unfold wrapIdx
              split_ifs <;> omega
            have e2 : decide (s.length ≤ start + t) =
                decide (s.length ≤ start + t + 1) := by
              simp only [decide_eq_decide]
              omega
            rw [e1, e2]
          · rw [if_neg (by omega)]
            have e1 : (0 : Nat) = wrapIdx s.length (start + t + 1) := by
              unfold wrapIdx
              rw [if_neg (by omega)]
              omega
            have e2 : true = decide (s.length ≤ start + t + 1) :=
              (decide_eq_true (by omega : s.length ≤ start + t + 1)).symm
            rw [e1, e2]
      have ih' : search_loop s text start (k + 1)
          (wrapIdx s.length (start + t + 1))
          (decide (s.length ≤ start + t + 1)) (d + 1) =
        match (List.range' (t + 1) k).find?
            (fun u =>
              text.isPrefixOf (subnameAt s (wrapIdx s.length (start + u)))) with
        | some u =>
          (wrapIdx s.length (start + u),
            (d + 1) + ((u - (t + 1) : Nat) : Int), true)
        | none => (start, (d + 1) + (k : Int), false) :=
        ih (t + 1) (d + 1) (by omega)
      rw [hstep, ih']
      cases hf : (List.range' (t + 1) k).find?
          (fun u =>
            text.isPrefixOf (subnameAt s (wrapIdx s.length (start + u)))) with
      | none =>
        simp only [hf]
        have harg : (d + 1) + (k : Int) = d + ((k : Int) + 1) := by ring
        simp [harg]
      | some u =>
        have hu : t + 1 ≤ u := by
          have := List.mem_of_find?_eq_some hf
          exact (List.mem_range'_1.mp this).1
        simp only [hf]
        have harg : (d + 1) + ((u - (t + 1) : Nat) : Int) =
            d + ((u - t : Nat) : Int) := by
          omega
        simp [harg]

lemma search_tree_eq (s : List TEntry) (tl : Int) (text : List Char)
    (v : TreeView) (hv : v.sel < s.length) :
    search_tree s tl text v =
      match (List.range' 0 s.length).find?
          (fun u =>
            text.isPrefixOf (subnameAt s (wrapIdx s.length (v.sel + u)))) with
      | some u =>
        ({ sel := wrapIdx s.length (v.sel + u),
           topdiff := tree_check_focus tl (v.topdiff + (u : Int)) }, true)
      | none =>
        ({ sel := v.sel,
           topdiff := tree_check_focus tl (v.topdiff + (s.length : Int)) },
         false) := by
  have e1 : v.sel = wrapIdx s.length (v.sel + 0) := by
    unfold wrapIdx
    split_ifs <;> omega
  have e2 : false = decide (s.length ≤ v.sel + 0) := by
    symm
    simp only [decide_eq_false_iff_not]
    omega
  have h0 : search_loop s text v.sel (s.length + 1)
      (wrapIdx s.length (v.sel + 0))
      (decide (s.length ≤ v.sel + 0)) v.topdiff =
    match (List.range' 0 s.length).find?
        (fun u =>
          text.isPrefixOf (subnameAt s (wrapIdx s.length (v.sel + u)))) with
    | some u =>
      (wrapIdx s.length (v.sel + u), v.topdiff + ((u - 0 : Nat) : Int), true)
    | none => (v.sel, v.topdiff + (s.length : Int), false) :=
    search_loop_spec s text v.sel hv s.length 0 v.topdiff (by omega)
  rw [← e1, ← e2] at h0
  simp only [search_tree]
  rw [h0]
  cases hf : (List.range' 0 s.length).find?
      (fun u =>
        text.isPrefixOf (subnameAt s (wrapIdx s.length (v.sel + u)))) with
  | none => simp [hf]
  | some u => simp [hf]

lemma search_tree_fail (s : List TEntry) (tl : Int) (text : List Char)
    (v : TreeView) (hv : v.sel < s.length)
    (hno : ∀ k, k < s.length → text.isPrefixOf (subnameAt s k) = false) :
    search_tree s tl text v =
      ({ sel := v.sel,
         topdiff := tree_check_focus tl (v.topdiff + (s.length : Int)) },
       false) := by
  rw [search_tree_eq s tl text v hv]
  have hf : (List.range' 0 s.length).find?
      (fun u =>
        text.isPrefixOf (subnameAt s (wrapIdx s.length (v.sel + u)))) =
      none := by
    rw [List.find?_eq_none]
    intro u hu
    have hu' : u < s.length := by
      have := List.mem_range'_1.mp hu
      omega
    have hw : wrapIdx s.length (v.sel + u) < s.length := by
      unfold wrapIdx
      split_ifs <;> omega
    simp [hno _ hw]
  rw [hf]

/-- The two-record store `[/ (depth 0), /a (depth 1)]`. -/
def c9store : List TEntry :=
  [⟨"/", ['/'], 0, 0⟩, ⟨"/a", ['a'], 1, 0⟩]

lemma parent_walk_spec (s : List TEntry) (L : Nat) :
    ∀ cur d, parent_walk s L cur d =
      match (List.range (cur + 1)).reverse.find?
          (fun j => decide (lvlAt s j < L)) with
      | some j => (some j, d - ((cur - j : Nat) : Int))
      | none => (none, d - ((cur : Nat) + 1 : Int)) := by
  intro cur
  induction cur with
  | zero =>
    intro d
    by_cases h : lvlAt s 0 < L
    · simp [parent_walk, List.range_succ, h, Nat.not_le_of_lt h]
    · simp [parent_walk, List.range_succ, h, Nat.le_of_not_lt h]
  | succ k ih =>
    intro d
    have hrev : (List.range (k + 1 + 1)).reverse =
        (k + 1) :: (List.range (k + 1)).reverse := by
      rw [List.range_succ, List.reverse_append]
      simp
    by_cases h : lvlAt s (k + 1) < L
    · simp [hrev, List.find?_cons, h, parent_walk, Nat.not_le_of_lt h]
    · rw [hrev]
      rw [show List.find? (fun j => decide (lvlAt s j < L))
            ((k + 1) :: (List.range (k + 1)).reverse) =
          List.find? (fun j => decide (lvlAt s j < L))
            (List.range (k + 1)).reverse from by
        simp [List.find?_cons, h]]
      have hstep : parent_walk s L (k + 1) d = parent_walk s L k (d - 1) := by
        simp [parent_walk, Nat.le_of_not_lt h]
      rw [hstep, ih (d - 1)]
      cases hf : (List.range (k + 1)).reverse.find?
          (fun j => decide (lvlAt s j < L)) with
      | none => simp; omega
      | some j =>
        have hj : j < k + 1 := by
          have := List.mem_of_find?_eq_some hf
          simpa using List.mem_range.mp (by simpa using this)
        simp
        omega

/-- C9 counterexample: on `[/ (depth 0), /a (depth 1)]` with `/a`
(index 1) selected, `topdiff = 10` and `tl = 20`, `tree_move_to_parent`
moves the selection one prev-step to `/` (index 0) but leaves the scroll
offset at 10 — not the (clamped) 10 − 1 = 9 that one decrement per
prev-step taken would give: the step from the selection to its `prev`
happens before the decrementing loop and is never counted. -/
theorem tree_move_to_parent_step_uncounted :
    (tree_move_to_parent c9store 20 ⟨1, 10⟩).1.sel = 0 ∧
    (tree_move_to_parent c9store 20 ⟨1, 10⟩).1.topdiff = 10 ∧
    (tree_move_to_parent c9store 20 ⟨1, 10⟩).1.topdiff ≠
      tree_check_focus 20 (10 - 1) := by
  decide

/-- C9 amended: `tree_move_to_parent` walks `prev` links from the
selection until a record of strictly lesser depth is found, decrementing
`topdiff` once per prev-step after the first (k steps make k − 1
decrements; if no lesser-depth record exists the walk runs off the
sequence start, decrementing once per predecessor, i.e. `sel` times, and
the first record is selected); the result is focus-corrected, and the
call returns `true` exactly when the selection changed. -/
theorem tree_move_to_parent_steps (s : List TEntry) (tl : Int)
    (v : TreeView) :
    tree_move_to_parent s tl v =
      match parentIdx s v.sel with
      | some j =>
        ({ sel := j,
           topdiff :=
             tree_check_focus tl (v.topdiff - ((v.sel - j - 1 : Nat) : Int)) },
         true)
      | none =>
        ({ sel := 0,
           topdiff := tree_check_focus tl (v.topdiff - (v.sel : Int)) },
         decide (0 ≠ v.sel)) := by
  rcases v with ⟨sel, d⟩
  cases sel with
  | zero => simp [tree_move_to_parent, parentIdx]
  | succ k =>
    simp only [tree_move_to_parent, parentIdx]
    rw [parent_walk_spec s (lvlAt s (k + 1)) k d]
    cases hf : (List.range (k + 1)).reverse.find?
        (fun j => decide (lvlAt s j < lvlAt s (k + 1))) with
    | none =>
      have harg : d - ((k : Int) + 1) = d - ((k + 1 : Nat) : Int) := by
        push_cast
        ring
      simp [hf, harg]
    | some j =>
      have hj : j < k + 1 := by
        have := List.mem_of_find?_eq_some hf
        simpa using List.mem_range.mp (by simpa using this)
      have harg : (k - j : Nat) = (k + 1 - j - 1 : Nat) := by omega
      simp [hf, ← harg, Nat.ne_of_lt hj]

/-- C7: for every integer scroll offset and every visible-row count
`tl ≥ 8`, `tree_check_focus` is idempotent — applying it twice yields the
same scroll offset as applying it once — and its result lies in
`[3, tl - 4]`. -/
theorem tree_check_focus_idem_and_range (tl d : Int) (h : 8 ≤ tl) :
    tree_check_focus tl (tree_check_focus tl d) = tree_check_focus tl d ∧
    3 ≤ tree_check_focus tl d ∧ tree_check_focus tl d ≤ tl - 4 :=
  ⟨tree_check_focus_idem tl d h, tree_check_focus_range tl d h⟩

/-- Witness for C7 at `tl = 8`, `d = 0`. -/
theorem tree_check_focus_idem_and_range_witness :
    tree_check_focus 8 (tree_check_focus 8 0) = tree_check_focus 8 0 ∧
    3 ≤ tree_check_focus 8 0 ∧ tree_check_focus 8 0 ≤ 8 - 4 :=
  tree_check_focus_idem_and_range 8 0 (by decide)

/-- C2 counterexample: the claimed invariant `3 ≤ scroll_offset` is not
preserved by every operation — `tree_move_to_top` resets `topdiff` to 0
unconditionally (tree.c:565), with the store non-empty and record 0
selected afterwards. -/
theorem scroll_bound_not_invariant :
    (tree_move_to_top c8store ⟨2, 7⟩).topdiff = 0 ∧
    ¬ 3 ≤ (tree_move_to_top c8store ⟨2, 7⟩).topdiff := by
  decide

/-- C2 amended: when `tl ≥ 8`, the bound `3 ≤ topdiff ≤ tl - 4` holds
after every operation that ends in focus correction — forward and
backward moves in either mode, `tree_move_to_parent`, and the search
scan.  It is not an invariant of every view operation:
`tree_move_to_top` sets `topdiff = 0` and `tree_move_to_bottom` sets it
directly to `tl - 4`, both without clamping, and a `tree_move_to_child`
whose check fails twice leaves `topdiff` untouched. -/
theorem scroll_bound_after_clamping_ops (s : List TEntry) (tl : Int)
    (v : TreeView) (flag : Bool) (n : Nat) (text : List Char) (h : 8 ≤ tl) :
    (3 ≤ (tree_move_forward s flag tl v n).topdiff ∧
      (tree_move_forward s flag tl v n).topdiff ≤ tl - 4) ∧
    (3 ≤ (tree_move_backward s flag tl v n).topdiff ∧
      (tree_move_backward s flag tl v n).topdiff ≤ tl - 4) ∧
    (3 ≤ (tree_move_to_parent s tl v).1.topdiff ∧
      (tree_move_to_parent s tl v).1.topdiff ≤ tl - 4) ∧
    (3 ≤ (search_tree s tl text v).1.topdiff ∧
      (search_tree s tl text v).1.topdiff ≤ tl - 4) := by
  refine ⟨?_, ?_, ?_, ?_⟩
  · cases flag <;>
      simpa [tree_move_forward] using tree_check_focus_range tl _ h
  · cases flag <;>
      simpa [tree_move_backward] using tree_check_focus_range tl _ h
  · rcases v with ⟨sel, d⟩
    cases sel <;>
      simpa [tree_move_to_parent] using tree_check_focus_range tl _ h
  · simpa [search_tree] using tree_check_focus_range tl _ h

/-- Witness for C2 amended on the §8 store at `tl = 8`. -/
theorem scroll_bound_after_clamping_ops_witness :
    (3 ≤ (tree_move_forward c8store true 8 ⟨0, 0⟩ 2).topdiff ∧
      (tree_move_forward c8store true 8 ⟨0, 0⟩ 2).topdiff ≤ 8 - 4) ∧
    (3 ≤ (tree_move_backward c8store true 8 ⟨0, 0⟩ 2).topdiff ∧
      (tree_move_backward c8store true 8 ⟨0, 0⟩ 2).topdiff ≤ 8 - 4) ∧
    (3 ≤ (tree_move_to_parent c8store 8 ⟨0, 0⟩).1.topdiff ∧
      (tree_move_to_parent c8store 8 ⟨0, 0⟩).1.topdiff ≤ 8 - 4) ∧
    (3 ≤ (search_tree c8store 8 ['b'] ⟨0, 0⟩).1.topdiff ∧
      (search_tree c8store 8 ['b'] ⟨0, 0⟩).1.topdiff ≤ 8 - 4) :=
  scroll_bound_after_clamping_ops c8store 8 ⟨0, 0⟩ true 2 ['b'] (by decide)

/-- C8: on the §8 store with `/a/x` (index 2) selected, in hierarchical
mode `tree_move_to_parent` selects `/a` (index 1); then from `/a`,
`tree_move_forward` by 1 in hierarchical mode selects `/b` (index 3),
skipping `/a/x`; from `/a` in flat mode it selects `/a/x` (index 2). -/
theorem scenario_parent_then_forward :
    (tree_move_to_parent c8store 20 ⟨2, 5⟩).1.sel = 1 ∧
    (tree_move_forward c8store true 20 ⟨1, 5⟩ 1).sel = 3 ∧
    (tree_move_forward c8store false 20 ⟨1, 5⟩ 1).sel = 2 := by
  decide

/-- C3: under the pre-order store invariant (the record after any record
is at most one level deeper than it), `tree_move_to_child` selects the
immediate next record — incrementing the scroll offset, with the §4.2
clamp — and raises no rescan, exactly when that record's depth is one
greater than the selection's; otherwise it raises exactly one rescan and
retries the same check once against the rescanned store `s'`; if the
check still fails, the view (selection and scroll offset) is unchanged. -/
theorem tree_move_to_child_spec (s s' : List TEntry) (tl : Int)
    (v : TreeView)
    (hpre : v.sel + 1 < s.length → lvlAt s (v.sel + 1) ≤ lvlAt s v.sel + 1)
    (hpre' : v.sel + 1 < s'.length →
      lvlAt s' (v.sel + 1) ≤ lvlAt s' v.sel + 1) :
    ((v.sel + 1 < s.length ∧ lvlAt s (v.sel + 1) = lvlAt s v.sel + 1) ↔
      tree_move_to_child s s' tl v =
        (s, { sel := v.sel + 1,
              topdiff := tree_check_focus tl (v.topdiff + 1) }, 0)) ∧
    (¬(v.sel + 1 < s.length ∧ lvlAt s (v.sel + 1) = lvlAt s v.sel + 1) →
      (tree_move_to_child s s' tl v).2.2 = 1 ∧
      ((v.sel + 1 < s'.length ∧ lvlAt s' (v.sel + 1) = lvlAt s' v.sel + 1) →
        (tree_move_to_child s s' tl v).2.1 =
          { sel := v.sel + 1,
            topdiff := tree_check_focus tl (v.topdiff + 1) }) ∧
      (¬(v.sel + 1 < s'.length ∧
          lvlAt s' (v.sel + 1) = lvlAt s' v.sel + 1) →
        (tree_move_to_child s s' tl v).2.1 = v)) := by
  have e1 : (v.sel + 1 < s.length ∧ lvlAt s v.sel < lvlAt s (v.sel + 1)) ↔
      (v.sel + 1 < s.length ∧ lvlAt s (v.sel + 1) = lvlAt s v.sel + 1) := by
    constructor
    · rintro ⟨h1, h2⟩
      exact ⟨h1, by have := hpre h1; omega⟩
    · rintro ⟨h1, h2⟩
      exact ⟨h1, by omega⟩
  have e2 : (v.sel + 1 < s'.length ∧
      lvlAt s' v.sel < lvlAt s' (v.sel + 1)) ↔
      (v.sel + 1 < s'.length ∧ lvlAt s' (v.sel + 1) = lvlAt s' v.sel + 1) := by
    constructor
    · rintro ⟨h1, h2⟩
      exact ⟨h1, by have := hpre' h1; omega⟩
    · rintro ⟨h1, h2⟩
      exact ⟨h1, by omega⟩
  by_cases hc : v.sel + 1 < s.length ∧ lvlAt s v.sel < lvlAt s (v.sel + 1)
  · constructor
    · simp [tree_move_to_child, hc, e1.mp hc]
    · intro hno
      exact absurd (e1.mp hc) hno
  · by_cases hc' : v.sel + 1 < s'.length ∧
        lvlAt s' v.sel < lvlAt s' (v.sel + 1)
    · constructor
      · constructor
        · intro h1
          exact absurd h1 (by simpa [e1] using hc)
        · intro heq
          have : (tree_move_to_child s s' tl v).2.2 = 1 := by
            simp [tree_move_to_child, hc, hc']
          rw [heq] at this
          simp at this
      · intro _
        refine ⟨by simp [tree_move_to_child, hc, hc'], fun _ => ?_, fun hno => ?_⟩
        · simp [tree_move_to_child, hc, hc']
        · exact absurd (e2.mp hc') hno
    · constructor
      · constructor
        · intro h1
          exact absurd h1 (by simpa [e1] using hc)
        · intro heq
          have : (tree_move_to_child s s' tl v).2.2 = 1 := by
            simp [tree_move_to_child, hc, hc']
          rw [heq] at this
          simp at this
      · intro _
        refine ⟨by simp [tree_move_to_child, hc, hc'], fun h => ?_, fun _ => ?_⟩
        · exact absurd (e2.mpr h) hc'
        · simp [tree_move_to_child, hc, hc']

/-- Witness for C3 on the §8 store with `/a` selected: `/a/x` is one
level deeper, so the child move succeeds without a rescan. -/
theorem tree_move_to_child_spec_witness :
    ((1 + 1 < c8store.length ∧
        lvlAt c8store (1 + 1) = lvlAt c8store 1 + 1) ↔
      tree_move_to_child c8store c8store 20 ⟨1, 5⟩ =
        (c8store,
          { sel := 1 + 1,
            topdiff := tree_check_focus 20 ((5 : Int) + 1) }, 0)) ∧
    (¬(1 + 1 < c8store.length ∧
        lvlAt c8store (1 + 1) = lvlAt c8store 1 + 1) →
      (tree_move_to_child c8store c8store 20 ⟨1, 5⟩).2.2 = 1 ∧
      ((1 + 1 < c8store.length ∧
          lvlAt c8store (1 + 1) = lvlAt c8store 1 + 1) →
        (tree_move_to_child c8store c8store 20 ⟨1, 5⟩).2.1 =
          { sel := 1 + 1, topdiff := tree_check_focus 20 ((5 : Int) + 1) }) ∧
      (¬(1 + 1 < c8store.length ∧
          lvlAt c8store (1 + 1) = lvlAt c8store 1 + 1) →
        (tree_move_to_child c8store c8store 20 ⟨1, 5⟩).2.1 = ⟨1, 5⟩)) :=
  tree_move_to_child_spec c8store c8store 20 ⟨1, 5⟩ (by decide) (by decide)

/-- Witness for C1 on the §8 store with a six-command sequence. -/
theorem tree_selected_always_valid_witness :
    (applyOps c8store 20 ⟨0, 3⟩
      [.forward true 2, .child, .parent, .top, .bottom,
       .backward false 1]).sel < c8store.length :=
  tree_selected_always_valid c8store 20 ⟨0, 3⟩
    [.forward true 2, .child, .parent, .top, .bottom, .backward false 1]
    (by decide) (by decide)

/-- The two-record store used to exercise the search scan's treatment of
the current selection: both records' subnames start with `a`. -/
def c4store : List TEntry :=
  [⟨"/a", ['a'], 1, 0⟩, ⟨"/ab", ['a', 'b'], 1, 0⟩]

/-- The two-record store whose subnames are `x` and `b`. -/
def c5store : List TEntry :=
  [⟨"/x", ['x'], 0, 0⟩, ⟨"/b", ['b'], 0, 0⟩]

/-- C4 counterexample: searching `"a"` from selection 0 in a store whose
records are named `a` and `ab` keeps selection 0 with zero steps taken
(`topdiff` stays 5): the scan tests the current selection first, before
any step.  Under the claimed order — the selection a candidate only after
wrapping fully around — the first candidate is record 1, which matches,
so the claim predicts selection 1. -/
theorem search_scan_selection_checked_first :
    (search_tree c4store 20 ['a'] ⟨0, 5⟩).1.sel = 0 ∧
    (search_tree c4store 20 ['a'] ⟨0, 5⟩).1.topdiff = 5 ∧
    search_spec_wrap_last c4store ['a'] 0 = some 1 := by
  decide

/-- C4 amended: the record selected by the search scan is the first
prefix match in the order that starts at the current selection itself
(step 0) and walks `next` links, wrapping once to the sequence start —
the selection is the first candidate, not the last; `topdiff` is
incremented once per step taken and then clamped; if no record matches,
the selection is unchanged and the scan reports failure. -/
theorem search_scan_first_match (s : List TEntry) (tl : Int)
    (text : List Char) (v : TreeView) (hv : v.sel < s.length) :
    search_tree s tl text v =
      match (List.range' 0 s.length).find?
          (fun u =>
            text.isPrefixOf (subnameAt s (wrapIdx s.length (v.sel + u)))) with
      | some u =>
        ({ sel := wrapIdx s.length (v.sel + u),
           topdiff := tree_check_focus tl (v.topdiff + (u : Int)) }, true)
      | none =>
        ({ sel := v.sel,
           topdiff := tree_check_focus tl (v.topdiff + (s.length : Int)) },
         false) :=
  search_tree_eq s tl text v hv

/-- Witness for C4 amended on the `a`/`ab` store. -/
theorem search_scan_first_match_witness :
    search_tree c4store 20 ['a'] ⟨0, 5⟩ =
      match (List.range' 0 c4store.length).find?
          (fun u =>
            List.isPrefixOf ['a']
              (subnameAt c4store (wrapIdx c4store.length (0 + u)))) with
      | some u =>
        ({ sel := wrapIdx c4store.length (0 + u),
           topdiff := tree_check_focus 20 ((5 : Int) + (u : Int)) }, true)
      | none =>
        ({ sel := 0,
           topdiff :=
             tree_check_focus 20 ((5 : Int) + (c4store.length : Int)) },
         false) :=
  search_scan_first_match c4store 20 ['a'] ⟨0, 5⟩ (by decide)

/-- C10: a search scan that finds no match is not atomic on scroll
state: on a store of `n` records it visits all `n` records, incrementing
`topdiff` once per record visited, and the final scroll offset is the
focus-correction clamp of `topdiff + n`, even though the selection is
unchanged and the scan reports failure. -/
theorem search_failed_scan_scroll (s : List TEntry) (tl : Int)
    (text : List Char) (v : TreeView) (hv : v.sel < s.length)
    (hno : ∀ k, k < s.length → text.isPrefixOf (subnameAt s k) = false) :
    search_tree s tl text v =
      ({ sel := v.sel,
         topdiff := tree_check_focus tl (v.topdiff + (s.length : Int)) },
       false) :=
  search_tree_fail s tl text v hv hno

/-- Witness for C10: searching `"a"` in the `x`/`b` store visits both
records and clamps `topdiff` from 5 + 2 = 7. -/
theorem search_failed_scan_scroll_witness :
    search_tree c5store 20 ['a'] ⟨0, 5⟩ =
      ({ sel := 0,
         topdiff := tree_check_focus 20 ((5 : Int) + (c5store.length : Int)) },
       false) :=
  search_failed_scan_scroll c5store 20 ['a'] ⟨0, 5⟩ (by decide) (by decide)

/-- C5 counterexample: in the `x`/`b` store with record 0 selected,
typing `a` then `b` (an empty buffer, then keys 97 and 98) types the
buffer `"ab"`, which is a prefix of no record's subname — yet the final
selection is record 1 (it moved) and the final buffer is `"b"`, which is
not even a prefix of `"ab"` (so certainly not its longest matching
prefix): each failed character is dropped individually, so the next
keystroke searches a different buffer. -/
theorem tree_do_search_greedy_buffer :
    (['a', 'b'].isPrefixOf (subnameAt c5store 0) = false ∧
     ['a', 'b'].isPrefixOf (subnameAt c5store 1) = false) ∧
    (tree_do_search c5store 20 4096
        (tree_do_search c5store 20 4096 ⟨0, 5⟩ [] 97).1
        (tree_do_search c5store 20 4096 ⟨0, 5⟩ [] 97).2 98).1.sel = 1 ∧
    (tree_do_search c5store 20 4096
        (tree_do_search c5store 20 4096 ⟨0, 5⟩ [] 97).1
        (tree_do_search c5store 20 4096 ⟨0, 5⟩ [] 97).2 98).2 = ['b'] ∧
    (['b'].isPrefixOf ['a', 'b']) = false := by
  decide

/-- C5 amended: when one accepted printable character (32 ≤ key ≤ 255)
is appended to a buffer below its capacity and the forward scan then
completes a full wrap without a prefix match, the just-appended
character is removed again (the buffer reverts to its previous
contents) and the selection is unchanged (`topdiff` still advances by
the store length, clamped).  Over several keystrokes the rollback is
per-character, so the buffer is built greedily and a fully-unmatched
typed string need not leave the selection in place. -/
theorem tree_do_search_rollback (s : List TEntry) (tl : Int) (maxlen : Nat)
    (v : TreeView) (buf : List Char) (key : Nat) (hv : v.sel < s.length)
    (hk1 : 32 ≤ key) (hk2 : key ≤ 255) (hlen : buf.length < maxlen)
    (hno : ∀ k, k < s.length →
      (buf ++ [Char.ofNat key]).isPrefixOf (subnameAt s k) = false) :
    tree_do_search s tl maxlen v buf key =
      ({ sel := v.sel,
         topdiff := tree_check_focus tl (v.topdiff + (s.length : Int)) },
       buf) := by
  have hkb : ¬(buf.length ≠ 0 ∧ key = KEY_BACKSPACE) := by
    unfold KEY_BACKSPACE
    rintro ⟨_, h⟩
    omega
  have hky : key ≠ 0 ∧ buf.length < maxlen := ⟨by omega, hlen⟩
  simp only [tree_do_search]
  rw [if_neg hkb, if_pos hky]
  rw [search_tree_fail s tl (buf ++ [Char.ofNat key]) v hv hno]
  simp [List.dropLast_concat]

/-- Witness for C5 amended: one keystroke `a` on the `x`/`b` store rolls
back to the empty buffer with the selection unchanged. -/
theorem tree_do_search_rollback_witness :
    tree_do_search c5store 20 4096 ⟨0, 5⟩ [] 97 =
      ({ sel := 0,
         topdiff := tree_check_focus 20 ((5 : Int) + (c5store.length : Int)) },
       []) :=
  tree_do_search_rollback c5store 20 4096 ⟨0, 5⟩ [] 97 (by decide) (by decide)
    (by decide) (by decide) (by decide)

lemma getD_eraseIdx_lt (s : List TEntry) :
    ∀ i j, j < i → (s.eraseIdx i).getD j default = s.getD j default := by
  induction s with
  | nil => intro i j _; simp
  | cons a t ih =>
    intro i j hj
    cases i with
    | zero => omega
    | succ i =>
      cases j with
      | zero => simp
      | succ j =>
        simpa using ih i j (by omega)

lemma getD_eraseIdx_ge (s : List TEntry) :
    ∀ i j, i ≤ j → i < s.length →
      (s.eraseIdx i).getD j default = s.getD (j + 1) default := by
  induction s with
  | nil => intro i j _ h; simp at h
  | cons a t ih =>
    intro i j hij hi
    cases i with
    | zero => simp
    | succ i =>
      cases j with
      | zero => omega
      | succ j =>
        simpa using ih i j (by omega) (by simpa using hi)

/-- C6: when a record is removed from the store, the hook reseats the
view's selection only if the removed record was the selection: the new
selection is the record formerly at `i + 1` (the removed record's
`next`) when it exists, else the one formerly at `i - 1` (its `prev`);
an unrelated removal leaves the selection on the same record (reindexed
when it sat past the removal point); and the selection becomes `none`
exactly when the store had a single record — i.e. becomes empty
(given `i < s.length`, emptiness afterwards is `s.length = 1`). -/
theorem remove_hook_reseat (s : List TEntry) (sel i : Nat)
    (hi : i < s.length) (hsel : sel < s.length) :
    ((sel = i ∧ i + 1 < s.length) →
      (tree_store_remove s sel i).2 = some i ∧
      (tree_store_remove s sel i).1.getD i default = s.getD (i + 1) default) ∧
    ((sel = i ∧ ¬ i + 1 < s.length ∧ 0 < i) →
      (tree_store_remove s sel i).2 = some (i - 1) ∧
      (tree_store_remove s sel i).1.getD (i - 1) default =
        s.getD (i - 1) default) ∧
    (sel ≠ i →
      (tree_store_remove s sel i).2 =
        some (if i < sel then sel - 1 else sel) ∧
      (tree_store_remove s sel i).1.getD
          (if i < sel then sel - 1 else sel) default = s.getD sel default) ∧
    ((tree_store_remove s sel i).2 = none ↔ s.length = 1) := by
  refine ⟨?_, ?_, ?_, ?_⟩
  · rintro ⟨rfl, hnext⟩
    unfold tree_store_remove remove_callback
    simp only [if_pos rfl, if_pos hnext]
    constructor
    · simp
    · simpa using getD_eraseIdx_ge s sel sel (le_refl sel) hi
  · rintro ⟨rfl, hnext, hpos⟩
    unfold tree_store_remove remove_callback
    simp only [if_pos rfl, if_neg hnext, if_pos hpos]
    constructor
    · simp
    · simpa using getD_eraseIdx_lt s sel (sel - 1) (by omega)
  · intro hne
    unfold tree_store_remove remove_callback
    simp only [if_neg hne]
    by_cases hlt : i < sel
    · simp only [if_pos hlt]
      constructor
      · simp [hlt]
      · have := getD_eraseIdx_ge s i (sel - 1) (by omega) hi
        rw [this]
        congr 1
        omega
    · simp only [if_neg hlt]
      constructor
      · simp [hlt]
      · exact getD_eraseIdx_lt s i sel (by omega)
  · unfold tree_store_remove remove_callback
    by_cases hsi : sel = i
    · by_cases hnext : i + 1 < s.length
      · simp [hsi, hnext]
        omega
      · by_cases hpos : 0 < i
        · simp [hsi, hnext, hpos]
          omega
        · simp [hsi, hnext, hpos]
          omega
    · simp [hsi]
      omega

/-- Witness for C6 on the §8 store with the selected record `/a/x`
(index 2) removed: the selection reseats to the former `/b`. -/
theorem remove_hook_reseat_witness :
    ((2 = 2 ∧ 2 + 1 < c8store.length) →
      (tree_store_remove c8store 2 2).2 = some 2 ∧
      (tree_store_remove c8store 2 2).1.getD 2 default =
        c8store.getD (2 + 1) default) ∧
    ((2 = 2 ∧ ¬ 2 + 1 < c8store.length ∧ 0 < 2) →
      (tree_store_remove c8store 2 2).2 = some (2 - 1) ∧
      (tree_store_remove c8store 2 2).1.getD (2 - 1) default =
        c8store.getD (2 - 1) default) ∧
    ((2 : Nat) ≠ 2 →
      (tree_store_remove c8store 2 2).2 =
        some (if 2 < 2 then 2 - 1 else 2) ∧
      (tree_store_remove c8store 2 2).1.getD
          (if 2 < 2 then 2 - 1 else 2) default = c8store.getD 2 default) ∧
    ((tree_store_remove c8store 2 2).2 = none ↔ c8store.length = 1) :=
  remove_hook_reseat c8store 2 2 (by decide) (by decide)
